import Mathlib

/-
  Shallow embedding of the rust_vec repository (src/lib.rs, src/raw.rs,
  src/main.rs): a hand-built growable vector with raw-pointer internals.

  Modelling conventions:
  * A raw allocation is `data : Nat → Option α` indexed by slot; `none`
    models an uninitialized slot, so `ptr::read` of uninitialized memory
    surfaces as a `none` result instead of undefined behaviour.
  * Machine pointers are slot indices (`Nat`) relative to the start of the
    allocation; `usize::MAX` (written `!0` in the source) and `isize::MAX`
    are the 64-bit constants, taken modulo nothing because the source only
    compares against them.
  * `assert!` failures and `handle_alloc_error` are fatal aborts; fallible
    operations return `Except VecError`.
  * The element size of `T` is an explicit parameter `es` where the source
    consults `mem::size_of::<T>()`.
-/

namespace RustVec

/-- Model of `usize::MAX` (`!0` in the source) on a 64-bit target. -/
def usizeMaxNat : Nat := 2 ^ 64 - 1

/-- Model of `isize::MAX as usize` on a 64-bit target. -/
def isizeMaxNat : Nat := 2 ^ 63 - 1

/-- Fatal abort conditions appearing in the source: the two
`assert!(..., "capacity overflow")` checks in `RawVec::grow`, the
index assertions in `insert`/`remove`, and the zero-sized-type assertion
in the `main.rs` variant of `RawVec::new`. -/
inductive VecError
  | indexOutOfBounds
  | capacityOverflow
  | zstNotAllowed
deriving DecidableEq

variable {α : Type}

/-- Model of `RawVec<T>` (src/raw.rs): a raw allocation plus its capacity.
`data i` is the content of slot `i`; `none` means uninitialized. -/
structure RawVec (α : Type) where
  data : Nat → Option α
  cap : Nat

/-- Model of `ptr::write(base.offset(i), x)` into a `RawVec` allocation. -/
def RawVec.write (r : RawVec α) (i : Nat) (x : α) : RawVec α :=
  { r with data := fun j => if j = i then some x else r.data j }

/-- Model of `ptr::copy(base.offset(src), base.offset(dst), count)`:
memmove semantics, every destination slot reads from the pre-call state. -/
def RawVec.copy (r : RawVec α) (src dst count : Nat) : RawVec α :=
  { r with
    data := fun j =>
      if dst ≤ j ∧ j < dst + count then r.data (src + (j - dst)) else r.data j }

/-- Model of `RawVec::new` from src/raw.rs (the library variant): no
assertion; a zero-sized element type gets capacity `!0`, otherwise 0.
The dangling pointer carries no initialized slots. -/
def RawVec.new (es : Nat) : RawVec α :=
  { data := fun _ => none, cap := if es = 0 then usizeMaxNat else 0 }

/-- Model of `RawVec::new` from src/main.rs (the binary variant):
`assert!(mem::size_of::<T>() != 0, "zero-sized type not allowed..yet")`,
then capacity 0 with a dangling pointer. -/
def MainVariant.RawVec.new (α : Type) (es : Nat) : Except VecError (RawVec α) :=
  if es = 0 then .error .zstNotAllowed
  else .ok { data := fun _ => none, cap := 0 }

/-- Model of `RawVec::grow` from src/raw.rs: asserts the element size is
nonzero; capacity 0 allocates for exactly one element; otherwise asserts
`cap * es ≤ isize::MAX / 2` and reallocates to double capacity, the
allocation contents being preserved. Allocation failure itself
(`handle_alloc_error`) terminates the process and is not a value of the
model; the asserts are the `Except` failures. -/
def RawVec.grow (r : RawVec α) (es : Nat) : Except VecError (RawVec α) :=
  if es = 0 then .error .capacityOverflow
  else if r.cap = 0 then .ok { r with cap := 1 }
  else if r.cap * es ≤ isizeMaxNat / 2 then .ok { r with cap := 2 * r.cap }
  else .error .capacityOverflow

/-- Model of `RawValIter<T>` (src/raw.rs): a pair of cursors into a buffer
it does not own. `start`/`endp` are slot indices (`end` is a keyword in
Lean, hence `endp`). -/
structure RawValIter (α : Type) where
  buf : Nat → Option α
  start : Nat
  endp : Nat

/-- Model of `RawValIter::new(slice)`: front cursor at slot 0 of the
slice, back cursor one past the last slice element (for an empty slice,
the same as the front cursor, exactly as the source special-cases). -/
def RawValIter.new (buf : Nat → Option α) (len : Nat) : RawValIter α :=
  { buf := buf, start := 0, endp := len }

/-- Model of `Iterator::next` for `RawValIter` (src/raw.rs, non-zero-sized
path): if the cursors meet, exhausted; otherwise read at `start` and
advance `start` by one element. -/
def RawValIter.next (it : RawValIter α) : Option (Option α × RawValIter α) :=
  if it.start = it.endp then none
  else some (it.buf it.start, { it with start := it.start + 1 })

/-- Model of `DoubleEndedIterator::next_back` for `RawValIter`
(src/raw.rs), transcribed exactly as written: if the cursors meet,
exhausted; otherwise the source assigns `start := endp - 1` (note: the
front cursor, not the back cursor) and then reads at the unchanged
`endp`, one slot past the last initialized element. -/
def RawValIter.next_back (it : RawValIter α) : Option (Option α × RawValIter α) :=
  if it.start = it.endp then none
  else some (it.buf it.endp, { it with start := it.endp - 1 })

/-- Repeatedly call `RawValIter.next`, at most `fuel` times, collecting
the yielded reads in order together with the final iterator state. -/
def RawValIter.consume : Nat → RawValIter α → List (Option α) × RawValIter α
  | 0, it => ([], it)
  | n + 1, it =>
    match it.next with
    | none => ([], it)
    | some (x, it2) =>
      let r := RawValIter.consume n it2
      (x :: r.1, r.2)

/-- Model of `Vec<T>` (src/lib.rs): a length and an owned `RawVec`. -/
structure Vec (α : Type) where
  len : Nat
  buf : RawVec α

/-- Model of `Vec::new`: length 0 over a fresh `RawVec::new`. -/
def Vec.new (es : Nat) : Vec α :=
  { len := 0, buf := RawVec.new es }

/-- Model of `Vec::push` (src/lib.rs): grow when `len == cap`, write the
element at slot `len`, increment the length. -/
def Vec.push (v : Vec α) (es : Nat) (x : α) : Except VecError (Vec α) :=
  match (if v.len = v.buf.cap then v.buf.grow es else .ok v.buf) with
  | .error e => .error e
  | .ok buf => .ok { len := v.len + 1, buf := buf.write v.len x }

/-- Model of `Vec::pop` (src/lib.rs): `none` on an empty vector (the
Rust `None`), otherwise decrement the length and read the slot at the
new length. The inner `Option` is the read of that slot. -/
def Vec.pop (v : Vec α) : Option (Option α) × Vec α :=
  if v.len = 0 then (none, v)
  else (some (v.buf.data (v.len - 1)), { v with len := v.len - 1 })

/-- Model of `Vec::insert` (src/lib.rs): assert `index <= len`, grow when
full, shift `[index, len)` one slot right via `ptr::copy`, write the
element at `index`, increment the length. -/
def Vec.insert (v : Vec α) (es index : Nat) (x : α) : Except VecError (Vec α) :=
  if index ≤ v.len then
    match (if v.buf.cap = v.len then v.buf.grow es else .ok v.buf) with
    | .error e => .error e
    | .ok buf =>
      let buf2 := if index < v.len then buf.copy index (index + 1) (v.len - index) else buf
      .ok { len := v.len + 1, buf := buf2.write index x }
  else .error .indexOutOfBounds

/-- Model of `Vec::remove` (src/lib.rs), transcribed in source order:
assert `index < len`, decrement the length, shift `[index+1, old len)`
one slot left via `ptr::copy`, and only then read the slot at `index`
(which the copy has already overwritten whenever `index < len - 1`). -/
def Vec.remove (v : Vec α) (index : Nat) : Except VecError (Option α × Vec α) :=
  if index < v.len then
    let newLen := v.len - 1
    let buf := v.buf.copy (index + 1) index (newLen - index)
    .ok (buf.data index, { len := newLen, buf := buf })
  else .error .indexOutOfBounds

/-- Model of `IntoIter<T>` (src/lib.rs): the buffer moved out of the
consumed vector plus a `RawValIter` over its initialized span. -/
structure IntoIter (α : Type) where
  _buf : RawVec α
  iter : RawValIter α

/-- Model of `Vec::into_iter` (src/lib.rs): build the `RawValIter` over
the deref slice `[0, len)`, move the buffer out, forget the vector. -/
def Vec.into_iter (v : Vec α) : IntoIter α :=
  { _buf := v.buf, iter := RawValIter.new v.buf.data v.len }

/-- Model of `Iterator::next` for `IntoIter` (src/lib.rs): forwards to
the wrapped `RawValIter`. -/
def IntoIter.next (it : IntoIter α) : Option (Option α × IntoIter α) :=
  match it.iter.next with
  | none => none
  | some (x, i2) => some (x, { it with iter := i2 })

/-- Repeatedly call `IntoIter.next`, at most `fuel` times. -/
def IntoIter.consume : Nat → IntoIter α → List (Option α) × IntoIter α
  | 0, it => ([], it)
  | n + 1, it =>
    match it.next with
    | none => ([], it)
    | some (x, it2) =>
      let r := IntoIter.consume n it2
      (x :: r.1, r.2)

/-- Model of the `Drain<T>` struct constructed by `Vec::drain` in
src/lib.rs (the `PhantomData` borrow marker carries no data). -/
structure Drain (α : Type) where
  iter : RawValIter α

/-- Modelled from the spec: drain.rs is not among the source files, only
its use in src/lib.rs is. Spec §4.4 states that the Draining Iterator
wraps a Raw Range Iterator and forwards `next` to it. -/
def Drain.next (d : Drain α) : Option (Option α × Drain α) :=
  match d.iter.next with
  | none => none
  | some (x, i2) => some (x, { iter := i2 })

/-- Repeatedly call `Drain.next`, at most `fuel` times. -/
def Drain.consume : Nat → Drain α → List (Option α) × Drain α
  | 0, it => ([], it)
  | n + 1, it =>
    match it.next with
    | none => ([], it)
    | some (x, it2) =>
      let r := Drain.consume n it2
      (x :: r.1, r.2)

/-- Model of `Vec::drain` (src/lib.rs): build the `RawValIter` over the
current `[0, len)`, set the length of the source vector to 0, and return
the draining iterator alongside the mutated source. -/
def Vec.drain (v : Vec α) : Drain α × Vec α :=
  (⟨RawValIter.new v.buf.data v.len⟩, { v with len := 0 })

/-- Well-formedness of a modelled vector against the list of its logical
contents: the length matches, the length is within capacity, and every
slot below the length holds the corresponding list element. -/
def Vec.WF (v : Vec α) (l : List α) : Prop :=
  v.len = l.length ∧ v.len ≤ v.buf.cap ∧ ∀ i, i < l.length → v.buf.data i = l[i]?

instance (v : Vec Nat) (l : List Nat) : Decidable (v.WF l) := by
  unfold Vec.WF; infer_instance

/-- Well-formedness lifted over the abort monad: an aborted operation
satisfies no contents description. -/
def WFE : Except VecError (Vec α) → List α → Prop
  | .error _, _ => False
  | .ok v, l => v.WF l

/-- Operations of the mutation API, for stating state invariants over
arbitrary operation sequences. -/
inductive Op (α : Type)
  | push (x : α)
  | pop
  | insert (i : Nat) (x : α)
  | remove (i : Nat)
  | drain

/-- Apply one operation to a vector, keeping only the vector state. -/
def Vec.applyOp (v : Vec α) (es : Nat) : Op α → Except VecError (Vec α)
  | .push x => v.push es x
  | .pop => .ok (v.pop).2
  | .insert i x => v.insert es i x
  | .remove i => (v.remove i).map Prod.snd
  | .drain => .ok (v.drain).2

/-- Run a sequence of operations from a starting vector, stopping at the
first fatal abort. -/
def Vec.runOps (es : Nat) : Vec α → List (Op α) → Except VecError (Vec α)
  | v, [] => .ok v
  | v, op :: ops =>
    match v.applyOp es op with
    | .error e => .error e
    | .ok v2 => Vec.runOps es v2 ops

/-- Length-within-capacity invariant, lifted over the abort monad: a
fatally aborted run has no state to constrain. -/
def invariantE : Except VecError (Vec α) → Prop
  | .error _ => True
  | .ok v => v.len ≤ v.buf.cap

/-- Concrete two-slot buffer holding 10 and 11, used as evaluation input. -/
def bufTwo : Nat → Option Nat :=
  fun i => if i = 0 then some 10 else if i = 1 then some 11 else none

/-- Concrete vector [10, 11] of length 2 and capacity 2. -/
def vecTwo : Vec Nat := ⟨2, ⟨bufTwo, 2⟩⟩

/-- Concrete raw iterator over the span [10, 11]: front 0, back 2. -/
def iterTwo : RawValIter Nat := ⟨bufTwo, 0, 2⟩

/-- C1: evaluation of `Vec::remove` at the failing input: on the vector
[10, 11], `remove(0)` returns 11 (the element formerly at slot 1), not
10, while the remaining vector is [11] of length 1; the element 10 is
overwritten without ever being read out. -/
theorem C1_remove_evaluated :
    (vecTwo.remove 0).map (fun p => (p.1, p.2.len, p.2.buf.data 0)) =
      .ok (some 11, 1, some 11) := rfl

/-- C2: evaluation of `RawValIter::next_back` at the failing input: on
the iterator over [10, 11] with front 0 and back 2, the source reads the
uninitialized slot 2 (one past the last element, a `none` read in the
model), assigns the decremented position to the front cursor (now 1),
and leaves the back cursor at 2. -/
theorem C2_next_back_evaluated :
    iterTwo.next_back.map (fun p => (p.1, p.2.start, p.2.endp)) =
      some (none, 1, 2) := rfl

/-- C3 counterexample: constructing the library-variant buffer
(src/raw.rs `RawVec::new`) with element size 0 does not fail: it is a
total construction producing capacity `usize::MAX`. -/
theorem C3_counterexample : (RawVec.new 0 : RawVec Unit).cap = usizeMaxNat := rfl

/-- C3 amended: the main.rs variant of `RawVec::new` rejects zero-sized
element types at construction; the library variant (src/raw.rs) never
fails at construction, producing capacity `usize::MAX` for a zero-sized
element type and capacity 0 otherwise. -/
theorem C3_new_amended (es : Nat) :
    (es = 0 → MainVariant.RawVec.new Unit es = .error .zstNotAllowed ∧
      (RawVec.new es : RawVec Unit).cap = usizeMaxNat) ∧
    (es ≠ 0 → (MainVariant.RawVec.new Unit es).map RawVec.cap = .ok 0 ∧
      (RawVec.new es : RawVec Unit).cap = 0) := by
  constructor
  · intro h
    subst h
    exact ⟨rfl, rfl⟩
  · intro h
    rw [MainVariant.RawVec.new, if_neg h]
    refine ⟨rfl, ?_⟩
    simp [RawVec.new, h]

/-- C3 witness: the amended statement evaluated at element size 0. -/
theorem C3_new_amended_witness :
    MainVariant.RawVec.new Unit 0 = .error .zstNotAllowed ∧
      (RawVec.new 0 : RawVec Unit).cap = usizeMaxNat :=
  (C3_new_amended 0).1 rfl

/-- Core consumption lemma: repeatedly calling `next` on a raw iterator
whose span of length `l.length` starts at slot `s` and is initialized to
`l` yields exactly the elements of `l` in order and moves the front
cursor up to the back cursor. -/
theorem RawValIter.consume_yields (l : List α) (buf : Nat → Option α) :
    ∀ s : Nat, (∀ i, i < l.length → buf (s + i) = l[i]?) →
      RawValIter.consume l.length ⟨buf, s, s + l.length⟩ =
        (l.map some, ⟨buf, s + l.length, s + l.length⟩) := by
  induction l with
  | nil => intro s h; rfl
  | cons a t ih =>
    intro s h
    have hne : s ≠ s + (t.length + 1) := by omega
    have h0 : buf s = some a := by
      simpa using h 0 (by simp only [List.length_cons]; omega)
    have ht : ∀ i, i < t.length → buf (s + 1 + i) = t[i]? := by
      intro i hi
      have e : s + (i + 1) = s + 1 + i := by omega
      have := h (i + 1) (by simp only [List.length_cons]; omega)
      rw [e] at this
      simpa using this
    have e2 : s + (t.length + 1) = s + 1 + t.length := by omega
    simp only [List.length_cons, RawValIter.consume, RawValIter.next, if_neg hne]
    rw [e2, ih (s + 1) ht]
    simp [h0]

/-- Consumption of a freshly created raw iterator over an initialized
slice yields the slice contents. -/
theorem RawValIter.consume_new (l : List α) (buf : Nat → Option α) (n : Nat)
    (hn : n = l.length) (h : ∀ i, i < l.length → buf i = l[i]?) :
    RawValIter.consume l.length (RawValIter.new buf n) =
      (l.map some, ⟨buf, n, n⟩) := by
  subst hn
  have := RawValIter.consume_yields l buf 0 (by intro i hi; simpa using h i hi)
  simpa [RawValIter.new] using this

/-- Consuming an `IntoIter` forwards to consuming its raw iterator. -/
theorem IntoIter.consume_fwd_into (n : Nat) :
    ∀ (b : RawVec α) (it : RawValIter α),
      IntoIter.consume n ⟨b, it⟩ =
        ((RawValIter.consume n it).1, ⟨b, (RawValIter.consume n it).2⟩) := by
  induction n with
  | zero => intro b it; rfl
  | succ n ih =>
    intro b it
    cases h : it.next with
    | none => simp [IntoIter.consume, RawValIter.consume, IntoIter.next, h]
    | some p =>
      obtain ⟨x, it2⟩ := p
      simp [IntoIter.consume, RawValIter.consume, IntoIter.next, h, ih]

/-- Consuming a `Drain` forwards to consuming its raw iterator. -/
theorem Drain.consume_fwd_drain (n : Nat) :
    ∀ it : RawValIter α,
      Drain.consume n ⟨it⟩ =
        ((RawValIter.consume n it).1, ⟨(RawValIter.consume n it).2⟩) := by
  induction n with
  | zero => intro it; rfl
  | succ n ih =>
    intro it
    cases h : it.next with
    | none => simp [Drain.consume, RawValIter.consume, Drain.next, h]
    | some p =>
      obtain ⟨x, it2⟩ := p
      simp [Drain.consume, RawValIter.consume, Drain.next, h, ih]

/-- C4: consuming `into_iter` front-to-back yields a successful read of
every element of the vector in their original order, the number of
yields equals the original length, and the iterator is then exhausted. -/
theorem C4_into_iter (v : Vec α) (l : List α) (hwf : v.WF l) :
    (IntoIter.consume l.length v.into_iter).1 = l.map some ∧
    (IntoIter.consume l.length v.into_iter).1.length = l.length ∧
    (IntoIter.consume l.length v.into_iter).2.next = none := by
  obtain ⟨hlen, hcap, hdata⟩ := hwf
  have key := RawValIter.consume_new l v.buf.data v.len hlen hdata
  rw [Vec.into_iter, IntoIter.consume_fwd_into, key]
  refine ⟨rfl, by simp, ?_⟩
  simp [IntoIter.next, RawValIter.next]

/-- Concrete vector [3, 4, 5] of length 3 and capacity 4. -/
def vecThree : Vec Nat :=
  ⟨3, ⟨fun i => if i = 0 then some 3 else if i = 1 then some 4 else
      if i = 2 then some 5 else none, 4⟩⟩

/-- C4 witness: the theorem applied to the concrete vector [3, 4, 5]. -/
theorem C4_into_iter_witness :
    Vec.WF vecThree [3, 4, 5] ∧
    ((IntoIter.consume 3 vecThree.into_iter).1 = [some 3, some 4, some 5] ∧
      (IntoIter.consume 3 vecThree.into_iter).1.length = 3 ∧
      (IntoIter.consume 3 vecThree.into_iter).2.next = none) :=
  ⟨by decide, C4_into_iter vecThree [3, 4, 5] (by decide)⟩

/-- C5: `drain` immediately sets the length of the source vector to 0
(observable on the returned source state before any consumption), and
consuming the returned draining iterator yields a successful read of
every formerly present element exactly once, in order, leaving the
iterator exhausted. -/
theorem C5_drain (v : Vec α) (l : List α) (hwf : v.WF l) :
    (v.drain).2.len = 0 ∧
    (Drain.consume l.length (v.drain).1).1 = l.map some ∧
    (Drain.consume l.length (v.drain).1).2.next = none := by
  obtain ⟨hlen, hcap, hdata⟩ := hwf
  have key := RawValIter.consume_new l v.buf.data v.len hlen hdata
  rw [Vec.drain]
  rw [Drain.consume_fwd_drain, key]
  refine ⟨rfl, rfl, ?_⟩
  simp [Drain.next, RawValIter.next]

/-- Concrete vector [7, 8] of length 2 and capacity 2. -/
def vecSeven : Vec Nat :=
  ⟨2, ⟨fun i => if i = 0 then some 7 else if i = 1 then some 8 else none, 2⟩⟩

/-- C5 witness: the theorem applied to the concrete vector [7, 8]. -/
theorem C5_drain_witness :
    Vec.WF vecSeven [7, 8] ∧
    ((vecSeven.drain).2.len = 0 ∧
      (Drain.consume 2 (vecSeven.drain).1).1 = [some 7, some 8] ∧
      (Drain.consume 2 (vecSeven.drain).1).2.next = none) :=
  ⟨by decide, C5_drain vecSeven [7, 8] (by decide)⟩

/-- Helper: when the element size is nonzero and the byte-size assertion
holds, grow succeeds, preserves the allocation contents, and produces
capacity 1 from capacity 0 and double capacity otherwise. -/
theorem RawVec.grow_ok (r : RawVec α) (es : Nat) (hes : es ≠ 0)
    (hov : r.cap * es ≤ isizeMaxNat / 2) :
    r.grow es = .ok ⟨r.data, if r.cap = 0 then 1 else 2 * r.cap⟩ := by
  unfold RawVec.grow
  rw [if_neg hes]
  by_cases hc : r.cap = 0
  · rw [if_pos hc, if_pos hc]
  · rw [if_neg hc, if_neg hc, if_pos hov]

/-- Helper: an arbitrary successful grow strictly increases the capacity
and preserves the allocation contents. -/
theorem RawVec.grow_cap (r : RawVec α) (es : Nat) (r2 : RawVec α)
    (h : r.grow es = .ok r2) : r.cap + 1 ≤ r2.cap ∧ r2.data = r.data := by
  unfold RawVec.grow at h
  by_cases hes : es = 0
  · rw [if_pos hes] at h; cases h
  · rw [if_neg hes] at h
    by_cases hc : r.cap = 0
    · rw [if_pos hc] at h
      cases h
      refine ⟨?_, rfl⟩
      show r.cap + 1 ≤ 1
      omega
    · rw [if_neg hc] at h
      by_cases hov : r.cap * es ≤ isizeMaxNat / 2
      · rw [if_pos hov] at h
        cases h
        refine ⟨?_, rfl⟩
        show r.cap + 1 ≤ 2 * r.cap
        omega
      · rw [if_neg hov] at h; cases h

/-- C6 counterexample: with element size 0 and capacity 0 the stated
byte-size precondition holds trivially, yet grow aborts fatally (the
first assertion) instead of producing capacity 1. -/
theorem C6_counterexample :
    0 * 0 ≤ isizeMaxNat / 2 ∧
      ((⟨fun _ => none, 0⟩ : RawVec Unit).grow 0).map RawVec.cap =
        .error .capacityOverflow :=
  ⟨Nat.zero_le _, rfl⟩

/-- C6 amended: for a nonzero element size, grow produces capacity
exactly 1 when the old capacity was 0, and exactly twice the old
capacity otherwise under the precondition (checked by assertion) that
`old capacity * element size` is at most half `isize::MAX`; a zero
element size aborts fatally before any of this. -/
theorem C6_grow_amended (r : RawVec α) (es : Nat) (hes : es ≠ 0) :
    (r.cap = 0 → (r.grow es).map RawVec.cap = .ok 1) ∧
    (r.cap ≠ 0 → r.cap * es ≤ isizeMaxNat / 2 →
      (r.grow es).map RawVec.cap = .ok (2 * r.cap)) := by
  constructor
  · intro hc
    rw [RawVec.grow_ok r es hes (by simp [hc])]
    simp [hc, Except.map]
  · intro hc hov
    rw [RawVec.grow_ok r es hes hov]
    simp [hc, Except.map]

/-- C6 witness: the amended statement at element size 1 and capacity 0. -/
theorem C6_grow_amended_witness :
    (1 : Nat) ≠ 0 ∧
      (((⟨fun _ => none, 0⟩ : RawVec Unit).cap = 0 →
          ((⟨fun _ => none, 0⟩ : RawVec Unit).grow 1).map RawVec.cap = .ok 1) ∧
        ((⟨fun _ => none, 0⟩ : RawVec Unit).cap ≠ 0 →
          (⟨fun _ => none, 0⟩ : RawVec Unit).cap * 1 ≤ isizeMaxNat / 2 →
          ((⟨fun _ => none, 0⟩ : RawVec Unit).grow 1).map RawVec.cap =
            .ok (2 * (⟨fun _ => none, 0⟩ : RawVec Unit).cap))) :=
  ⟨by decide, C6_grow_amended ⟨fun _ => none, 0⟩ 1 (by decide)⟩

/-- C7: under the fatal-by-design resource carve-outs of the spec (a
nonzero element size, and the byte-size assertion holding whenever a
grow would be needed), insert at an index at most the length succeeds
and yields the old contents with the value placed at the index and
everything from the index on shifted right, with the length incremented;
an index above the length aborts fatally. -/
theorem C7_insert (v : Vec α) (l : List α) (es index : Nat) (x : α)
    (hwf : v.WF l) (hes : es ≠ 0)
    (hov : v.buf.cap = v.len → v.buf.cap * es ≤ isizeMaxNat / 2) :
    (index ≤ v.len →
      WFE (v.insert es index x) (l.take index ++ x :: l.drop index)) ∧
    (v.len < index → v.insert es index x = .error .indexOutOfBounds) := by
  obtain ⟨hlen, hcap, hdata⟩ := hwf
  refine ⟨?_, ?_⟩
  case refine_2 =>
    intro hgt
    rw [Vec.insert, if_neg (by omega)]
  intro hidx
  rw [Vec.insert, if_pos hidx]
  have hbuf : ∃ c, (if v.buf.cap = v.len then v.buf.grow es else .ok v.buf)
      = .ok ⟨v.buf.data, c⟩ ∧ v.len + 1 ≤ c := by
    by_cases hc : v.buf.cap = v.len
    · rw [if_pos hc, RawVec.grow_ok v.buf es hes (hov hc)]
      refine ⟨_, rfl, ?_⟩
      by_cases h0 : v.buf.cap = 0
      · rw [if_pos h0]; omega
      · rw [if_neg h0]; omega
    · exact ⟨v.buf.cap, by rw [if_neg hc], by omega⟩
  obtain ⟨c, hb, hcle⟩ := hbuf
  rw [hb]
  simp only [WFE]
  have htake : (l.take index).length = index := by
    simp only [List.length_take]
    omega
  have hLlen : (l.take index ++ x :: l.drop index).length = l.length + 1 := by
    simp only [List.length_append, List.length_cons, List.length_take,
      List.length_drop]
    omega
  refine ⟨?_, ?_, ?_⟩
  · show v.len + 1 = (l.take index ++ x :: l.drop index).length
    rw [hLlen]
    omega
  · show v.len + 1 ≤ _
    by_cases hiv : index < v.len <;>
      simp only [if_pos, if_neg, hiv, if_true, if_false, RawVec.write,
        RawVec.copy] <;>
      exact hcle
  · intro j hj
    rw [hLlen] at hj
    rw [List.getElem?_append, htake]
    simp only [RawVec.write]
    by_cases hji : j = index
    · subst hji
      rw [if_pos rfl, if_neg (lt_irrefl j), Nat.sub_self,
        List.getElem?_cons_zero]
    · rw [if_neg hji]
      by_cases hjlt : j < index
      · rw [if_pos hjlt, List.getElem?_take, if_pos hjlt]
        have hjv : j < v.len := by omega
        have hnc : ¬(index + 1 ≤ j ∧ j < index + 1 + (v.len - index)) := by
          omega
        by_cases hiv : index < v.len
        · rw [if_pos hiv]
          simp only [RawVec.copy]
          rw [if_neg hnc]
          exact hdata j (by omega)
        · rw [if_neg hiv]
          exact hdata j (by omega)
      · have hij : index < j := by omega
        have hjle : j ≤ l.length := by omega
        have hiv : index < v.len := by omega
        rw [if_neg (by omega : ¬ j < index)]
        have e1 : j - index = (j - index - 1) + 1 := by omega
        rw [e1, List.getElem?_cons_succ, List.getElem?_drop]
        have e2 : index + (j - index - 1) = j - 1 := by omega
        rw [e2]
        rw [if_pos hiv]
        simp only [RawVec.copy]
        rw [if_pos (by omega : index + 1 ≤ j ∧ j < index + 1 + (v.len - index))]
        have e3 : index + (j - (index + 1)) = j - 1 := by omega
        rw [e3]
        exact hdata (j - 1) (by omega)

/-- Concrete vector [1, 2] of length 2 and capacity 4. -/
def vecIns : Vec Nat :=
  ⟨2, ⟨fun i => if i = 0 then some 1 else if i = 1 then some 2 else none, 4⟩⟩

/-- C7 witness: insert(1, 3) on the concrete vector [1, 2]. -/
theorem C7_insert_witness :
    Vec.WF vecIns [1, 2] ∧ (8 : Nat) ≠ 0 ∧
      (vecIns.buf.cap = vecIns.len → vecIns.buf.cap * 8 ≤ isizeMaxNat / 2) ∧
      ((1 ≤ vecIns.len →
          WFE (vecIns.insert 8 1 3)
            (([1, 2] : List Nat).take 1 ++ 3 :: ([1, 2] : List Nat).drop 1)) ∧
        (vecIns.len < 1 → vecIns.insert 8 1 3 = .error .indexOutOfBounds)) :=
  ⟨by decide, by decide, by decide,
    C7_insert vecIns [1, 2] 8 1 3 ⟨by decide, by decide, by decide⟩
      (by decide) (by decide)⟩

/-- C8: pop on an empty vector returns the no-value result as a normal
outcome (the operation is total, with no abort path); on a non-empty
vector it decrements the length, leaves the buffer untouched, and
returns the value previously stored at the new length index, the last
element. -/
theorem C8_pop (v : Vec α) (l : List α) (hwf : v.WF l) :
    (v.len = 0 → v.pop = (none, v)) ∧
    (v.len ≠ 0 →
      (v.pop).1 = some l.getLast? ∧ (v.pop).2.len = v.len - 1 ∧
        (v.pop).2.buf = v.buf) := by
  obtain ⟨hlen, hcap, hdata⟩ := hwf
  constructor
  · intro h0
    rw [Vec.pop, if_pos h0]
  · intro hne
    rw [Vec.pop, if_neg hne]
    refine ⟨?_, rfl, rfl⟩
    have := hdata (v.len - 1) (by omega)
    show some _ = _
    rw [this, hlen, List.getLast?_eq_getElem?]

/-- Concrete vector [20, 21] of length 2 and capacity 4. -/
def vecPop : Vec Nat :=
  ⟨2, ⟨fun i => if i = 0 then some 20 else if i = 1 then some 21 else none, 4⟩⟩

/-- C8 witness: the theorem applied to the concrete vector [20, 21]. -/
theorem C8_pop_witness :
    Vec.WF vecPop [20, 21] ∧
    ((vecPop.len = 0 → vecPop.pop = (none, vecPop)) ∧
      (vecPop.len ≠ 0 →
        (vecPop.pop).1 = some ([20, 21] : List Nat).getLast? ∧
          (vecPop.pop).2.len = vecPop.len - 1 ∧
          (vecPop.pop).2.buf = vecPop.buf)) :=
  ⟨by decide, C8_pop vecPop [20, 21] (by decide)⟩

/-- Helper: every application of one operation preserves the
length-within-capacity invariant (aborted applications have no state). -/
theorem applyOp_inv (v : Vec α) (es : Nat) (op : Op α)
    (h : v.len ≤ v.buf.cap) : invariantE (v.applyOp es op) := by
  cases op with
  | push x =>
    rw [Vec.applyOp, Vec.push]
    by_cases hc : v.len = v.buf.cap
    · rw [if_pos hc]
      cases hg : v.buf.grow es with
      | error e => simp [invariantE]
      | ok r2 =>
        have hgc := RawVec.grow_cap v.buf es r2 hg
        simp only [invariantE, RawVec.write]
        omega
    · rw [if_neg hc]
      simp only [invariantE, RawVec.write]
      omega
  | pop =>
    rw [Vec.applyOp, Vec.pop]
    by_cases h0 : v.len = 0
    · rw [if_pos h0]
      simpa [invariantE] using h
    · rw [if_neg h0]
      simp only [invariantE]
      omega
  | insert i x =>
    rw [Vec.applyOp, Vec.insert]
    by_cases hle : i ≤ v.len
    · rw [if_pos hle]
      by_cases hc : v.buf.cap = v.len
      · rw [if_pos hc]
        cases hg : v.buf.grow es with
        | error e => simp [invariantE]
        | ok r2 =>
          have hgc := RawVec.grow_cap v.buf es r2 hg
          by_cases hlt : i < v.len <;>
            simp only [invariantE, RawVec.write, RawVec.copy, hlt, if_true,
              if_false] <;>
            omega
      · rw [if_neg hc]
        by_cases hlt : i < v.len <;>
          simp only [invariantE, RawVec.write, RawVec.copy, hlt, if_true,
            if_false] <;>
          omega
    · rw [if_neg hle]
      simp [invariantE]
  | remove i =>
    rw [Vec.applyOp, Vec.remove]
    by_cases hlt : i < v.len
    · rw [if_pos hlt]
      simp only [invariantE, Except.map, RawVec.copy]
      omega
    · rw [if_neg hlt]
      simp [invariantE, Except.map]
  | drain =>
    rw [Vec.applyOp, Vec.drain]
    simp only [invariantE]
    omega

/-- Helper: the invariant propagates through any operation sequence. -/
theorem runOps_inv (es : Nat) (ops : List (Op α)) :
    ∀ v : Vec α, v.len ≤ v.buf.cap → invariantE (Vec.runOps es v ops) := by
  induction ops with
  | nil => intro v h; exact h
  | cons op ops ih =>
    intro v h
    rw [Vec.runOps]
    cases happ : v.applyOp es op with
    | error e => simp [invariantE]
    | ok v2 =>
      have h2 := applyOp_inv v es op h
      rw [happ] at h2
      exact ih v2 h2

/-- C9: starting from the empty vector, after any sequence of push, pop,
insert, remove and drain operations (hence after every prefix, the
sequence being arbitrary) the invariant `0 ≤ len ≤ cap` holds; the
lower bound is inherent to natural-number lengths, and a fatally
aborted run has no state left to constrain. -/
theorem C9_invariant (es : Nat) (ops : List (Op α)) :
    invariantE (Vec.runOps es (Vec.new es) ops) :=
  runOps_inv es ops (Vec.new es) (Nat.zero_le _)

/-- C10: inserting at the current length is exactly push: the two
computations return identical results (same abort behaviour, same
length, same contents in every slot). -/
theorem C10_insert_at_len_eq_push (v : Vec α) (es : Nat) (x : α) :
    v.insert es v.len x = v.push es x := by
  rw [Vec.insert, Vec.push, if_pos (le_refl v.len)]
  by_cases hc : v.len = v.buf.cap
  · rw [if_pos hc.symm, if_pos hc]
    cases v.buf.grow es with
    | error e => rfl
    | ok buf => simp [lt_irrefl]
  · rw [if_neg (fun h => hc h.symm), if_neg hc]
    simp [lt_irrefl]

end RustVec
